import Mathlib

/- Verification of the voice-synthesis subsystem of peer-elpis
  (src/voice/modules/voice_synth.py and src/voice/internal_openvoice/commons.py).

  Shallow embedding conventions: Python lists become Lean lists, float samples
  become rationals (exact arithmetic; irrational operations such as
  torch.layer_norm or seeded Gaussian sampling are abstracted as environment
  parameters), and the neural model's `infer` call — whose definition
  (internal_openvoice/models.py) is not part of the sources — is abstracted as
  a function of the one argument that varies between successive calls
  (`length_scale`), returning the per-token durations recovered from the
  alignment matrix and the waveform. -/

/-- Python `commons.intersperse(lst, item)` (commons.py lines 23-26):
`result = [item] * (len(lst) * 2 + 1); result[1::2] = lst`, i.e. a list of
length `2*len(lst)+1` whose even positions all hold `item` and whose odd
positions hold the elements of `lst` in order. -/
def intersperse : List Int → Int → List Int
  | [], item => [item]
  | x :: xs, item => item :: x :: intersperse xs item

/-- Tail of `VoiceSynthesizer._text_to_ids` (voice_synth.py lines 385-394):
blank interspersion applied to the token sequence `seq` produced by the
cascade, guarded by `(add_blank or force_add_blank) and blank_id is not None
and seq and len(seq) > 3`. -/
def applyBlankStep (addBlank forceAddBlank : Bool) (blankId : Option Int)
    (seq : List Int) : List Int :=
  match blankId with
  | some b =>
    if (addBlank || forceAddBlank) = true ∧ seq ≠ [] ∧ 3 < seq.length then
      intersperse seq b
    else seq
  | none => seq

/-- numpy-style median of a list of rationals: sort ascending, take the middle
element when the length is odd and the average of the two middle elements when
the length is even. -/
def npMedian (l : List ℚ) : ℚ :=
  let s := l.insertionSort (· ≤ ·)
  if l.length % 2 = 1 then s.getD (l.length / 2) 0
  else (s.getD (l.length / 2 - 1) 0 + s.getD (l.length / 2) 0) / 2

/-- Result of one `model.infer` call, abstracted to the two pieces the caller
reads: the per-token durations recovered from the alignment matrix
(`dur = attn.squeeze(1).sum(2).squeeze(0)`) and the waveform `y_hat[0, 0]`. -/
structure InferOut where
  dur : List ℚ
  audio : List ℚ

/-- The defensive token-id clamp `[j for j in seq if 0 <= j < vocab_size]`
(voice_synth.py lines 798 and 951). -/
def filterIds (vocabSize : ℕ) (seq : List Int) : List Int :=
  seq.filter (fun j => decide (0 ≤ j ∧ j < (vocabSize : Int)))

/-- Observable outcome of `VoiceSynthesizer._synthesize_sequence`: the token
ids handed to `model.infer` (none when the call aborts), the `length_scale`
values of the inference calls made, in order, and the returned samples. -/
structure SeqSynth where
  modelInput : Option (List Int)
  calls : List ℚ
  audio : Option (List ℚ)

/-- `VoiceSynthesizer._synthesize_sequence` (voice_synth.py lines 778-861):
empty input returns None; ids outside `[0, vocab_size)` are filtered and an
empty filtered sequence returns None; otherwise one inference runs, and when
`dur.size > 3`, `np.median(dur) < 1.0` and `length_scale < 1.5` a single
re-inference runs with `length_scale * 1.15` (its durations are discarded:
`y_hat, _, _, _`).  Clarity-mode post-processing of the samples is omitted;
the claims about this function concern the calls made and the model input. -/
def synthesizeSequence (vocabSize : ℕ) (infer : ℚ → InferOut)
    (lengthScale : ℚ) (seq : List Int) : SeqSynth :=
  if seq = [] then ⟨none, [], none⟩
  else
    let filtered := filterIds vocabSize seq
    if filtered = [] then ⟨none, [], none⟩
    else
      let out1 := infer lengthScale
      if 3 < out1.dur.length ∧ npMedian out1.dur < 1 ∧ lengthScale < 3/2 then
        let newScale := lengthScale * (23/20)
        ⟨some filtered, [lengthScale, newScale], some (infer newScale).audio⟩
      else ⟨some filtered, [lengthScale], some out1.audio⟩

/-- Per-sentence token selection in `VoiceSynthesizer.synthesize`
(voice_synth.py lines 949-962): clamp ids to `[0, vocab_size)`; if that
empties the sequence, fall back to the character-level tokenization
(`_text_to_ids(sentence, force_chars=True)`, passed in here as `fallback`)
WITHOUT re-filtering it; the sentence is skipped (`continue`) only when the
fallback is empty as well. -/
def synthSentenceIds (vocabSize : ℕ) (seq fallback : List Int) :
    Option (List Int) :=
  let f := filterIds vocabSize seq
  if f = [] then (if fallback = [] then none else some fallback) else some f

/-- `int(0.05 * sampling_rate)` under exact arithmetic. -/
def pauseSamples (sr : ℕ) : ℕ := sr / 20

/-- `np.zeros(pause_samples)` — the 50 ms inter-sentence silence buffer. -/
def silenceBlock (sr : ℕ) : List ℚ := List.replicate (pauseSamples sr) 0

/-- The `audio_segments` list built by the per-sentence loops of
`synthesize_audio` (voice_synth.py lines 734-769) and `synthesize`
(lines 930-1054).  Each entry of `results` is one sentence's outcome
(`none` = failed/skipped sentence, `some a` = synthesized segment `a`); a
successful sentence appends its segment and, when it is not the LAST SENTENCE
(`i < len(sentences) - 1`), a silence block. -/
def stitchBlocks (sr : ℕ) : List (Option (List ℚ)) → List (List ℚ)
  | [] => []
  | r :: rest =>
    (match r with
     | some a => a :: (if rest = [] then [] else [silenceBlock sr])
     | none => []) ++ stitchBlocks sr rest

/-- `np.mean` on rationals (empty list gives 0, matching `x / 0 = 0`). -/
def mean (l : List ℚ) : ℚ := l.sum / l.length

/-- `np.max(np.abs(l))` with 0 as the value on the empty list. -/
def maxAbs (l : List ℚ) : ℚ := l.foldr (fun x m => max |x| m) 0

/-- Final normalization in `synthesize` (voice_synth.py lines 1063-1070):
on a non-empty waveform, subtract the DC mean, then multiply by
`0.95 / peak` when the absolute peak of the centered signal exceeds 0.95. -/
def finalNormalize (l : List ℚ) : List ℚ :=
  if l = [] then l
  else
    let b := l.map (fun x => x - mean l)
    let p := maxAbs b
    if 19/20 < p then b.map (fun x => x * (19/20) / p) else b

/-- Aggregation tail of `synthesize_audio` (voice_synth.py lines 771-776):
raise `RuntimeError` when no segment was produced, otherwise return the bare
concatenation of the blocks together with the sampling rate — no final
normalization happens on this path. -/
def synthesizeAudioOut (sr : ℕ) (results : List (Option (List ℚ))) :
    Except String (List ℚ × ℕ) :=
  let blocks := stitchBlocks sr results
  if blocks = [] then Except.error "Failed to synthesize any audio"
  else Except.ok (blocks.flatten, sr)

/-- Aggregation tail of `synthesize` (voice_synth.py lines 1056-1073):
`none` models `return False` (no segments); on success the concatenation
passes through `finalNormalize` before being written to the output file. -/
def synthesizeOut (sr : ℕ) (results : List (Option (List ℚ))) :
    Option (List ℚ) :=
  let blocks := stitchBlocks sr results
  if blocks = [] then none else some (finalNormalize blocks.flatten)

/-- Association-list lookup, mirroring Python `key in dict` / `dict[key]` for
the in-object caches (`_ref_cache`, `_seq_cache`). -/
def alookup {α β : Type} [DecidableEq α] (k : α) : List (α × β) → Option β
  | [] => none
  | (q, v) :: rest => if q = k then some v else alookup k rest

/-- Abstract environment of the reference-embedding extractors.  Everything
deterministic that depends only on the (unchanged) file contents, the loaded
checkpoint or the process-wide PRNG contract is a function parameter:
`statsOf` is the concatenated statistics vector (mel mean/std, f0 and RMS
statistics) of `_extract_reference_embedding`; `entry seed inDim k` is the
`k`-th value of the `torch.randn` stream under `torch.Generator.manual_seed
seed`, already scaled by `1.0 / in_dim ** 0.5` (an irrational constant folded
into the abstract generator); `md5` is `int(hashlib.md5(path).hexdigest(),
16)`; `layerNorm` is `torch.nn.functional.layer_norm` over the last
dimension; `refEncOut` / `refEncSpec` are the trained reference encoder
applied to the mel-spectrogram (legacy path) resp. the linear spectrogram
(improved path) of the file; `enhancedOf` is
`_create_enhanced_pseudo_embedding` on the file's audio. -/
structure RefEnv where
  fileIsFile : String → Bool
  fileExists : String → Bool
  statsOf : String → List ℚ
  refEncOut : String → List ℚ
  refEncSpec : String → List ℚ
  enhancedOf : String → List ℚ
  layerNorm : List ℚ → List ℚ
  entry : ℕ → ℕ → ℕ → ℚ
  md5 : String → ℕ
  gin : ℕ
  hasRefEnc : Bool
  refEncUntrained : Bool
  hasEmbG : Bool
  refEncAttr : Bool

/-- `torch.randn(rows, cols, generator=seeded) * (1.0 / cols ** 0.5)` as a
row-major matrix of abstract generator values. -/
def randnMat (env : RefEnv) (seed rows cols : ℕ) : List (List ℚ) :=
  (List.range rows).map fun i =>
    (List.range cols).map fun j => env.entry seed cols (i * cols + j)

def dotProd (r x : List ℚ) : ℚ := (List.zipWith (· * ·) r x).sum

/-- `torch.matmul(proj, stats.transpose(0, 1)).transpose(0, 1)` for a single
statistics row: matrix-vector product. -/
def matVec (m : List (List ℚ)) (x : List ℚ) : List ℚ :=
  m.map fun row => dotProd row x

/-- Mutable state the extractors touch: the `_ref_cache` dict and the lazily
created `_pseudo_proj` tensor.  The projection is stored together with its
recorded shape (a torch tensor carries its shape even when a dimension is 0). -/
structure RefState where
  cache : List (String × List ℚ)
  proj : Option ((ℕ × ℕ) × List (List ℚ))

/-- `VoiceSynthesizer._extract_reference_embedding` (voice_synth.py lines
605-690): return None for an empty path or a missing file; serve from
`_ref_cache`; use the trained reference encoder when present and trained;
return None (no conditioning) when the encoder is absent/untrained but
speaker embeddings exist; otherwise take the pseudo path — lazily (re)create
`_pseudo_proj` from `torch.randn` seeded with
`int(md5(path), 16) % (2**31 - 1)` whenever no matrix exists or its shape
differs from `(gin, in_dim)`, project the statistics vector, layer-normalize,
and cache the result under the path. -/
def extractRef (env : RefEnv) (s : RefState) (path : String) :
    Option (List ℚ) × RefState :=
  if path = "" ∨ env.fileIsFile path = false then (none, s)
  else
    match alookup path s.cache with
    | some v => (some v, s)
    | none =>
      if env.hasRefEnc = true ∧ env.refEncUntrained = false then
        let v := env.refEncOut path
        (some v, ⟨(path, v) :: s.cache, s.proj⟩)
      else if (env.hasRefEnc = false ∨ env.refEncUntrained = true) ∧
          env.hasEmbG = true then
        (none, s)
      else
        let stats := env.statsOf path
        let d := stats.length
        let pr :=
          match s.proj with
          | some pm =>
            if pm.1 = (env.gin, d) then pm
            else ((env.gin, d), randnMat env (env.md5 path % 2147483647) env.gin d)
          | none => ((env.gin, d), randnMat env (env.md5 path % 2147483647) env.gin d)
        let v := env.layerNorm (matVec pr.2 stats)
        (some v, ⟨(path, v) :: s.cache, some pr⟩)

/-- `VoiceSynthesizer._extract_reference_embedding_improved` (voice_synth.py
lines 398-442): None for an empty path or a missing file; serve from the
shared `_ref_cache`; when `self.model.ref_enc` exists, run it on the
spectrogram and cache; otherwise return the enhanced pseudo embedding WITHOUT
caching it (the enhanced branch never writes `_ref_cache`). -/
def extractRefImproved (env : RefEnv) (s : RefState) (path : String) :
    Option (List ℚ) × RefState :=
  if path = "" ∨ env.fileExists path = false then (none, s)
  else
    match alookup path s.cache with
    | some v => (some v, s)
    | none =>
      if env.refEncAttr = true then
        let v := env.refEncSpec path
        (some v, ⟨(path, v) :: s.cache, s.proj⟩)
      else
        (some (env.enhancedOf path), s)

/-- Python `str.isspace` characters relevant to `\s` and `str.strip()`
(ASCII range; the claims' inputs are ASCII). -/
def pyIsSpace (c : Char) : Bool :=
  c = ' ' || c = '\t' || c = '\n' || c = '\x0d' || c = '\x0b' || c = '\x0c'

/-- A regex `[.!?]` character (the lookbehind of the sentence splitter). -/
def isTermChar (c : Char) : Bool := c = '.' || c = '!' || c = '?'

/-- A regex `[A-Z]` character (the lookahead of the sentence splitter). -/
def isUpperAZ (c : Char) : Bool := 'A' ≤ c && c ≤ 'Z'

/-- Python `str.strip()` on a character list. -/
def pyStrip (l : List Char) : List Char :=
  ((l.dropWhile pyIsSpace).reverse.dropWhile pyIsSpace).reverse

/-- Worker for `re.split(r'(?<=[.!?])\s+(?=[A-Z])', text)`: scan left to
right accumulating the current piece in reverse in `acc`; a maximal
whitespace run whose preceding character is `[.!?]` and whose following
character is `[A-Z]` is a separator (the run is dropped and a new piece
starts).  `fuel` only forces structural recursion: every recursive call
consumes at least one input character artifact, so with `fuel >
remaining-input length` the fuel-exhaustion branch is unreachable. -/
def splitGoF : ℕ → List Char → List Char → List (List Char)
  | 0, acc, l => [acc.reverse ++ l]
  | _ + 1, acc, [] => [acc.reverse]
  | n + 1, acc, c :: cs =>
    if (match acc with | t :: _ => isTermChar t | [] => false) &&
        pyIsSpace c &&
        (match (c :: cs).dropWhile pyIsSpace with
         | u :: _ => isUpperAZ u | [] => false) then
      acc.reverse :: splitGoF n [] ((c :: cs).dropWhile pyIsSpace)
    else
      splitGoF n (c :: acc) cs

/-- `re.split(r'(?<=[.!?])\s+(?=[A-Z])', t)` followed by
`[s.strip() for s in sentences if s.strip()]` (voice_synth.py lines 706-707
and 893-894), applied to the already-stripped text `t`. -/
def rawSentences (t : List Char) : List (List Char) :=
  ((splitGoF (t.length + 1) [] t).map pyStrip).filter (fun s => ¬s.isEmpty)

/-- Sentence segmentation of `synthesize_audio` / `synthesize`
(voice_synth.py lines 704-711 and 890-898): split the stripped text; if no
piece survives, or exactly one piece survives and the stripped text is
shorter than 100 characters, fall back to the whole stripped text as the
single sentence. -/
def segmentSentences (text : List Char) : List (List Char) :=
  let t := pyStrip text
  let pieces := rawSentences t
  if pieces = [] ∨ (pieces.length = 1 ∧ t.length < 100) then [t] else pieces

/-- Cache key of `_text_to_ids`: `(text, language, force_chars)`. -/
def TokKey : Type := String × String × Bool

instance : DecidableEq TokKey := by unfold TokKey; infer_instance

/-- Memoization shell of `VoiceSynthesizer._text_to_ids` (voice_synth.py
lines 281-286 and 395-396): serve from `_seq_cache` when the key is present,
otherwise run the tokenization cascade (abstracted as `compute`, covering
lines 287-394 including blank interspersion) and store the result under the
key before returning it. -/
def textToIds (compute : TokKey → List Int)
    (cache : List (TokKey × List Int)) (k : TokKey) :
    List Int × List (TokKey × List Int) :=
  match alookup k cache with
  | some v => (v, cache)
  | none => (compute k, (k, compute k) :: cache)

/-- Fold a sequence of `_text_to_ids` calls over the cache state. -/
def runToksCache (compute : TokKey → List Int) :
    List TokKey → List (TokKey × List Int) → List (TokKey × List Int)
  | [], c => c
  | k :: ks, c => runToksCache compute ks (textToIds compute c k).2

/-- Concrete extractor environment used to instantiate theorems: all files
exist, statistics vectors have length 2, the model has no reference encoder
and no speaker-embedding table (pure pseudo mode). -/
def envW : RefEnv where
  fileIsFile := fun _ => true
  fileExists := fun _ => true
  statsOf := fun _ => [1, 2]
  refEncOut := fun _ => [3]
  refEncSpec := fun _ => [4]
  enhancedOf := fun _ => [5]
  layerNorm := id
  entry := fun seed _ k => (seed : ℚ) + k
  md5 := fun p => p.length
  gin := 1
  hasRefEnc := false
  refEncUntrained := false
  hasEmbG := false
  refEncAttr := false

/-- Variant of `envW` in which no file exists. -/
def envW2 : RefEnv :=
  { envW with fileIsFile := fun _ => false, fileExists := fun _ => false }

theorem intersperse_length (l : List Int) (b : Int) :
    (intersperse l b).length = 2 * l.length + 1 := by
  induction l with
  | nil => rfl
  | cons x xs ih => simp [intersperse, ih]; omega

theorem intersperse_getD_even (l : List Int) (b : Int) (k : ℕ)
    (hk : k ≤ l.length) : (intersperse l b).getD (2 * k) 0 = b := by
  induction l generalizing k with
  | nil =>
    have : k = 0 := by simpa using hk
    subst this; rfl
  | cons x xs ih =>
    cases k with
    | zero => rfl
    | succ k =>
      have h2 : 2 * (k + 1) = 2 * k + 1 + 1 := by ring
      rw [h2]
      show (intersperse xs b).getD (2 * k) 0 = b
      exact ih k (by simpa using hk)

theorem intersperse_getD_odd (l : List Int) (b : Int) (k : ℕ)
    (hk : k < l.length) :
    (intersperse l b).getD (2 * k + 1) 0 = l.getD k 0 := by
  induction l generalizing k with
  | nil => simp at hk
  | cons x xs ih =>
    cases k with
    | zero => rfl
    | succ k =>
      have h2 : 2 * (k + 1) + 1 = 2 * k + 1 + 1 + 1 := by ring
      rw [h2]
      show (intersperse xs b).getD (2 * k + 1) 0 = xs.getD k 0
      exact ih k (by simpa using hk)

/-- Claim C1 (confirmed).  Blank interspersion invariant: with blank insertion
enabled (`add_blank` or `force_add_blank`) and a blank id present, a token
sequence of length `L > 3` becomes a sequence of length `2L+1` whose
even-indexed positions all equal the blank id and whose odd-indexed positions
are the original tokens in order; a sequence of length `≤ 3` is returned
unchanged. -/
theorem c1_blank_interspersion (addBlank forceAddBlank : Bool) (b : Int)
    (seq : List Int) (henabled : (addBlank || forceAddBlank) = true) :
    (3 < seq.length →
      (applyBlankStep addBlank forceAddBlank (some b) seq).length
          = 2 * seq.length + 1 ∧
      (∀ i, i < (applyBlankStep addBlank forceAddBlank (some b) seq).length →
        i % 2 = 0 →
        (applyBlankStep addBlank forceAddBlank (some b) seq).getD i 0 = b) ∧
      (∀ i, i < seq.length →
        (applyBlankStep addBlank forceAddBlank (some b) seq).getD (2 * i + 1) 0
          = seq.getD i 0)) ∧
    (seq.length ≤ 3 →
      applyBlankStep addBlank forceAddBlank (some b) seq = seq) := by
  constructor
  · intro hlen
    have hne : seq ≠ [] := by
      intro h; rw [h] at hlen; simp at hlen
    have happ : applyBlankStep addBlank forceAddBlank (some b) seq
        = intersperse seq b := by
      show (if (addBlank || forceAddBlank) = true ∧ seq ≠ [] ∧ 3 < seq.length
          then intersperse seq b else seq) = intersperse seq b
      rw [if_pos ⟨henabled, hne, hlen⟩]
    rw [happ]
    refine ⟨intersperse_length _ _, ?_, ?_⟩
    · intro i hi hmod
      obtain ⟨k, rfl⟩ : ∃ k, i = 2 * k := ⟨i / 2, by omega⟩
      rw [intersperse_length] at hi
      exact intersperse_getD_even seq b k (by omega)
    · intro i hi
      exact intersperse_getD_odd seq b i hi
  · intro hlen
    have hcond : ¬((addBlank || forceAddBlank) = true ∧ seq ≠ [] ∧
        3 < seq.length) := by
      rintro ⟨-, -, h3⟩; omega
    show (if (addBlank || forceAddBlank) = true ∧ seq ≠ [] ∧ 3 < seq.length
        then intersperse seq b else seq) = seq
    rw [if_neg hcond]

theorem c1_blank_interspersion_witness :
    (applyBlankStep true false (some 0) [5, 6, 7, 8]).length
        = 2 * ([5, 6, 7, 8] : List Int).length + 1 ∧
    applyBlankStep true false (some 0) [1, 2] = [1, 2] :=
  ⟨((c1_blank_interspersion true false 0 [5, 6, 7, 8] (by decide)).1
      (by decide)).1,
   (c1_blank_interspersion true false 0 [1, 2] (by decide)).2 (by decide)⟩

/-- Claim C2 (counterexample).  The claim asserts a retry whenever the median
duration is `< 1.0` and `length_scale < 1.5`, but the code only enters the
median check under `dur.size > 3`: with 2 per-token durations of 1/2 (median
1/2 < 1) and `length_scale = 1 < 1.5`, exactly one inference call is made and
no re-inference occurs. -/
theorem c2_duration_retry_counterexample :
    npMedian [1/2, 1/2] < 1 ∧ (1 : ℚ) < 3/2 ∧
    (synthesizeSequence 10 (fun _ => ⟨[1/2, 1/2], [0]⟩) 1 [1, 2]).calls
      = [1] := by
  refine ⟨by norm_num [npMedian, List.insertionSort, List.orderedInsert], by norm_num, ?_⟩
  decide

/-- Claim C2 (amended): within one sentence synthesis, after the first
inference, if MORE THAN 3 per-token durations were recovered and their median
is `< 1.0` and the current `length_scale` is `< 1.5`, then exactly one
re-inference is performed with `length_scale` equal to 1.15 times the
original; otherwise (median `≥ 1.0`, or `length_scale ≥ 1.5`, or at most 3
durations) no retry happens; never more than two inference calls are made,
regardless of what the second inference returns. -/
theorem c2_duration_retry_amended (vocabSize : ℕ) (infer : ℚ → InferOut)
    (ls : ℚ) (seq : List Int) (hne : filterIds vocabSize seq ≠ []) :
    (synthesizeSequence vocabSize infer ls seq).calls.length ≤ 2 ∧
    ((3 < (infer ls).dur.length ∧ npMedian (infer ls).dur < 1 ∧ ls < 3/2) →
      (synthesizeSequence vocabSize infer ls seq).calls
        = [ls, ls * (23/20)]) ∧
    ((¬ npMedian (infer ls).dur < 1 ∨ ¬ ls < 3/2) →
      (synthesizeSequence vocabSize infer ls seq).calls = [ls]) ∧
    ((¬ 3 < (infer ls).dur.length) →
      (synthesizeSequence vocabSize infer ls seq).calls = [ls]) := by
  have hseq : seq ≠ [] := by
    intro h; exact hne (by rw [h]; rfl)
  unfold synthesizeSequence
  rw [if_neg hseq, if_neg hne]
  by_cases hc : 3 < (infer ls).dur.length ∧ npMedian (infer ls).dur < 1 ∧
      ls < 3/2
  · rw [if_pos hc]
    refine ⟨by simp, fun _ => rfl, ?_, ?_⟩
    · rintro (h | h)
      · exact absurd hc.2.1 h
      · exact absurd hc.2.2 h
    · intro h
      exact absurd hc.1 h
  · rw [if_neg hc]
    exact ⟨by simp, fun h => absurd h hc, fun _ => rfl, fun _ => rfl⟩

theorem c2_duration_retry_amended_witness :
    (synthesizeSequence 10 (fun _ => ⟨[1/2, 1/2, 1/2, 1/2], [0]⟩) 1
      [1, 2]).calls = [1, 1 * (23/20)] :=
  (c2_duration_retry_amended 10 (fun _ => ⟨[1/2, 1/2, 1/2, 1/2], [0]⟩) 1
      [1, 2] (by decide)).2.1
    ⟨by norm_num,
     by norm_num [npMedian, List.insertionSort, List.orderedInsert],
     by norm_num⟩

theorem stitchBlocks_map_some (sr : ℕ) (segs : List (List ℚ)) :
    stitchBlocks sr (segs.map some)
      = List.intersperse (silenceBlock sr) segs := by
  induction segs with
  | nil => rfl
  | cons a rest ih =>
    cases rest with
    | nil => rfl
    | cons b rs =>
      rw [List.intersperse_cons_cons]
      show a :: silenceBlock sr :: stitchBlocks sr ((b :: rs).map some)
          = a :: silenceBlock sr :: List.intersperse (silenceBlock sr) (b :: rs)
      rw [ih]

theorem stitchBlocks_all_some_length (sr : ℕ) (segs : List (List ℚ)) :
    (stitchBlocks sr (segs.map some)).flatten.length
      = (segs.map List.length).sum + (segs.length - 1) * pauseSamples sr := by
  induction segs with
  | nil => simp [stitchBlocks]
  | cons a rest ih =>
    cases rest with
    | nil => simp [stitchBlocks]
    | cons b rs =>
      have hstep : stitchBlocks sr ((a :: b :: rs).map some)
          = a :: silenceBlock sr :: stitchBlocks sr ((b :: rs).map some) := rfl
      rw [hstep]
      simp only [List.flatten_cons, List.length_append, List.map_cons,
        List.sum_cons, List.length_cons]
      simp only [List.map_cons] at ih
      rw [ih]
      simp only [silenceBlock, List.length_replicate, List.map_cons,
        List.sum_cons, List.length_cons, Nat.add_sub_cancel, add_mul, one_mul]
      ring

theorem stitchBlocks_getLast_some (sr : ℕ) (results : List (Option (List ℚ)))
    (a : List ℚ) (h : results.getLast? = some (some a)) :
    (stitchBlocks sr results).getLast? = some a := by
  induction results with
  | nil => simp at h
  | cons r rest ih =>
    cases rest with
    | nil =>
      have hr : r = some a := by simpa using h
      subst hr
      rfl
    | cons r2 rs =>
      rw [List.getLast?_cons_cons] at h
      have ih' := ih h
      have hne : stitchBlocks sr (r2 :: rs) ≠ [] := by
        intro hemp; rw [hemp] at ih'; simp at ih'
      show ((match r with
        | some a => a :: (if (r2 :: rs) = ([] : List (Option (List ℚ))) then []
            else [silenceBlock sr])
        | none => []) ++ stitchBlocks sr (r2 :: rs)).getLast? = some a
      rw [List.getLast?_append_of_ne_nil _ hne]
      exact ih'

/-- Claim C3 (counterexample).  The claim says a silence buffer is never
appended after the last segment of the final waveform; but the 50 ms buffer
is appended after every SUCCESSFUL segment whose sentence is not the last
SENTENCE — when the last sentence fails, the silence block trails the final
waveform.  Two sentences, the first synthesized and the second failed, yield
`[segment, silence]`: the waveform ends in the silence buffer. -/
theorem c3_silence_counterexample :
    stitchBlocks 20 [some [1], none] = [[1], silenceBlock 20] ∧
    silenceBlock 20 = [0] ∧
    (stitchBlocks 20 [some [1], none]).getLast? = some (silenceBlock 20) := by
  refine ⟨rfl, rfl, rfl⟩

/-- Claim C3 (amended): when every sentence synthesizes successfully, the
segments are concatenated with exactly one silence block of
`int(0.05 * sampling_rate)` zero samples between consecutive segments and
none after the last, so the flattened length is the sum of the segment
lengths plus `(n-1)` pauses; no trailing silence appears whenever the LAST
sentence produced a segment; a trailing silence block can remain when the
last sentence fails after an earlier success. -/
theorem c3_silence_amended (sr : ℕ) (segs : List (List ℚ))
    (results : List (Option (List ℚ))) (a : List ℚ) :
    stitchBlocks sr (segs.map some)
        = List.intersperse (silenceBlock sr) segs ∧
    (stitchBlocks sr (segs.map some)).flatten.length
        = (segs.map List.length).sum + (segs.length - 1) * pauseSamples sr ∧
    (results.getLast? = some (some a) →
      (stitchBlocks sr results).getLast? = some a) :=
  ⟨stitchBlocks_map_some sr segs, stitchBlocks_all_some_length sr segs,
   stitchBlocks_getLast_some sr results a⟩

theorem c3_silence_amended_witness :
    (stitchBlocks 22050 ([[(1 : ℚ)], [2], [3]].map some)).flatten.length
      = 3 + 2 * 1102 ∧
    (stitchBlocks 22050 [some [(5 : ℚ)], some [7]]).getLast? = some [7] := by
  constructor
  · have h := (c3_silence_amended 22050 [[(1 : ℚ)], [2], [3]] [] []).2.1
    rw [h]
    norm_num [pauseSamples]
  · exact (c3_silence_amended 22050 [] [some [(5 : ℚ)], some [7]] [7]).2.2 rfl

theorem stitchBlocks_eq_nil_iff (sr : ℕ) (results : List (Option (List ℚ))) :
    stitchBlocks sr results = [] ↔ ∀ r ∈ results, r = none := by
  induction results with
  | nil => simp [stitchBlocks]
  | cons r rest ih =>
    cases r with
    | some a => simp [stitchBlocks]
    | none => simpa [stitchBlocks] using ih

/-- Claim C4 (confirmed).  Zero-usable-segment failure: the segment list is
empty exactly when every sentence failed; in that case `synthesize_audio`
raises (`Except.error`) and `synthesize` returns failure (`none`, modelling
`return False`), and a successful `synthesize_audio` return implies at least
one sentence produced a segment — an all-failed request is never answered
with an empty waveform as success. -/
theorem c4_zero_segment_failure (sr : ℕ)
    (results : List (Option (List ℚ))) :
    (stitchBlocks sr results = [] ↔ ∀ r ∈ results, r = none) ∧
    ((∀ r ∈ results, r = none) →
      synthesizeAudioOut sr results
          = Except.error "Failed to synthesize any audio" ∧
      synthesizeOut sr results = none) ∧
    (∀ w, synthesizeAudioOut sr results = Except.ok w →
      ∃ a, some a ∈ results) := by
  refine ⟨stitchBlocks_eq_nil_iff sr results, ?_, ?_⟩
  · intro h
    have hnil : stitchBlocks sr results = [] :=
      (stitchBlocks_eq_nil_iff sr results).2 h
    constructor
    · show (if stitchBlocks sr results = [] then _ else _) = _
      rw [if_pos hnil]
    · show (if stitchBlocks sr results = [] then _ else _) = _
      rw [if_pos hnil]
  · intro w hw
    by_contra hno
    push_neg at hno
    have hall : ∀ r ∈ results, r = none := by
      intro r hr
      cases r with
      | none => rfl
      | some a => exact absurd hr (hno a)
    have hnil : stitchBlocks sr results = [] :=
      (stitchBlocks_eq_nil_iff sr results).2 hall
    rw [show synthesizeAudioOut sr results
        = Except.error "Failed to synthesize any audio" from by
      show (if stitchBlocks sr results = [] then _ else _) = _
      rw [if_pos hnil]] at hw
    exact Except.noConfusion hw

theorem c4_zero_segment_failure_witness :
    synthesizeAudioOut 22050 [none, none]
        = Except.error "Failed to synthesize any audio" ∧
    synthesizeOut 22050 [none, none] = none :=
  (c4_zero_segment_failure 22050 [none, none]).2.1 (by decide)

/-- Claim C5 (counterexample).  In the `synthesize` path, when the bounds
clamp empties the token sequence, the character-level fallback tokenization
is passed to the model WITHOUT re-filtering: with `vocab_size = 1`, original
ids `[5]` (all filtered) and fallback ids `[2]`, the model receives `[2]`
even though `filterIds 1 [2] = []` certifies that id 2 lies outside
`[0, vocab_size)`; the sentence is also not reported as failed. -/
theorem c5_token_clamp_counterexample :
    synthSentenceIds 1 [5] [2] = some [2] ∧ filterIds 1 [2] = [] := by
  refine ⟨rfl, rfl⟩

/-- Claim C5 (amended): in `_synthesize_sequence` (the `synthesize_audio`
path) every id passed to the model lies in `[0, vocab_size)` and an
empty-after-filtering sequence aborts the sentence with failure (no calls, no
audio); in the `synthesize` path an empty-after-filtering sequence instead
retries with the character-level fallback tokenization, which is passed
without re-filtering, and the sentence is skipped only when that fallback is
empty too; a non-empty filtered sequence is passed on filtered. -/
theorem c5_token_clamp_amended (vocabSize : ℕ) (infer : ℚ → InferOut)
    (ls : ℚ) (seq fallback : List Int) :
    (∀ x, (synthesizeSequence vocabSize infer ls seq).modelInput = some x →
      ∀ j ∈ x, 0 ≤ j ∧ j < (vocabSize : Int)) ∧
    (filterIds vocabSize seq = [] →
      synthesizeSequence vocabSize infer ls seq = ⟨none, [], none⟩) ∧
    (synthSentenceIds vocabSize seq fallback = none ↔
      (filterIds vocabSize seq = [] ∧ fallback = [])) ∧
    (filterIds vocabSize seq = [] → fallback ≠ [] →
      synthSentenceIds vocabSize seq fallback = some fallback) ∧
    (filterIds vocabSize seq ≠ [] →
      synthSentenceIds vocabSize seq fallback
        = some (filterIds vocabSize seq)) := by
  refine ⟨?_, ?_, ?_, ?_, ?_⟩
  · intro x hx j hj
    have hxf : x = filterIds vocabSize seq := by
      unfold synthesizeSequence at hx
      by_cases h1 : seq = []
      · rw [if_pos h1] at hx; exact absurd hx (by simp)
      · rw [if_neg h1] at hx
        by_cases h2 : filterIds vocabSize seq = []
        · rw [if_pos h2] at hx; exact absurd hx (by simp)
        · rw [if_neg h2] at hx
          by_cases h3 : 3 < (infer ls).dur.length ∧
              npMedian (infer ls).dur < 1 ∧ ls < 3/2
          · rw [if_pos h3] at hx
            simpa using hx.symm
          · rw [if_neg h3] at hx
            simpa using hx.symm
    rw [hxf] at hj
    have := List.of_mem_filter hj
    simpa using this
  · intro h2
    unfold synthesizeSequence
    by_cases h1 : seq = []
    · rw [if_pos h1]
    · rw [if_neg h1, if_pos h2]
  · unfold synthSentenceIds
    by_cases h2 : filterIds vocabSize seq = []
    · rw [if_pos h2]
      by_cases h3 : fallback = []
      · rw [if_pos h3]; simp [h2, h3]
      · rw [if_neg h3]; simp [h2, h3]
    · rw [if_neg h2]; simp [h2]
  · intro h2 h3
    unfold synthSentenceIds
    rw [if_pos h2, if_neg h3]
  · intro h2
    unfold synthSentenceIds
    rw [if_neg h2]

theorem c5_token_clamp_amended_witness :
    synthSentenceIds 3 [5] [2] = some [2] ∧
    synthesizeSequence 3 (fun _ => ⟨[], []⟩) 1 [5] = ⟨none, [], none⟩ :=
  ⟨(c5_token_clamp_amended 3 (fun _ => ⟨[], []⟩) 1 [5] [2]).2.2.2.1
      (by decide) (by decide),
   (c5_token_clamp_amended 3 (fun _ => ⟨[], []⟩) 1 [5] [2]).2.1 (by decide)⟩

theorem sum_map_sub_const (l : List ℚ) (m : ℚ) :
    (l.map (fun x => x - m)).sum = l.sum - l.length * m := by
  induction l with
  | nil => simp
  | cons x xs ih =>
    simp only [List.map_cons, List.sum_cons, List.length_cons, ih]
    push_cast
    ring

theorem sum_map_mulR (l : List ℚ) (c : ℚ) :
    (l.map (fun x => x * c)).sum = l.sum * c := by
  induction l with
  | nil => simp
  | cons x xs ih =>
    simp only [List.map_cons, List.sum_cons, ih]
    ring

theorem mean_center (l : List ℚ) :
    mean (l.map (fun x => x - mean l)) = 0 := by
  by_cases h : l = []
  · rw [h]; simp [mean]
  · have hn : (l.length : ℚ) ≠ 0 := by
      have : l.length ≠ 0 := by
        simpa [List.length_eq_zero] using h
      exact_mod_cast this
    unfold mean
    rw [sum_map_sub_const, List.length_map]
    field_simp

theorem maxAbs_nonneg (l : List ℚ) : 0 ≤ maxAbs l := by
  induction l with
  | nil => exact le_refl 0
  | cons x xs ih =>
    exact le_trans ih (le_max_right _ _)

theorem maxAbs_map_mulR (l : List ℚ) (c : ℚ) (hc : 0 ≤ c) :
    maxAbs (l.map (fun x => x * c)) = maxAbs l * c := by
  induction l with
  | nil => simp [maxAbs]
  | cons x xs ih =>
    show max |x * c| (maxAbs (xs.map (fun x => x * c)))
        = max |x| (maxAbs xs) * c
    rw [ih, abs_mul, abs_of_nonneg hc, max_mul_of_nonneg _ _ hc]

theorem mean_map_mulR (l : List ℚ) (c : ℚ) :
    mean (l.map (fun x => x * c)) = mean l * c := by
  unfold mean
  rw [sum_map_mulR, List.length_map]
  ring

theorem finalNormalize_mean (l : List ℚ) : mean (finalNormalize l) = 0 := by
  unfold finalNormalize
  by_cases h : l = []
  · rw [if_pos h, h]; simp [mean]
  · rw [if_neg h]
    by_cases hp : 19/20 < maxAbs (l.map (fun x => x - mean l))
    · rw [if_pos hp]
      have hrw : (l.map (fun x => x - mean l)).map
            (fun x => x * (19/20) / maxAbs (l.map (fun x => x - mean l)))
          = (l.map (fun x => x - mean l)).map
            (fun x => x * ((19/20) / maxAbs (l.map (fun x => x - mean l)))) := by
        apply List.map_congr_left
        intro x _
        rw [mul_div_assoc]
      rw [hrw, mean_map_mulR, mean_center, zero_mul]
    · rw [if_neg hp]
      exact mean_center l

theorem finalNormalize_peak (l : List ℚ) :
    maxAbs (finalNormalize l) ≤ 19/20 := by
  unfold finalNormalize
  by_cases h : l = []
  · rw [if_pos h, h]
    norm_num [maxAbs]
  · rw [if_neg h]
    set b := l.map (fun x => x - mean l) with hb
    by_cases hp : 19/20 < maxAbs b
    · rw [if_pos hp]
      have hpos : (0 : ℚ) < maxAbs b := lt_trans (by norm_num) hp
      have hc : (0 : ℚ) ≤ (19/20) / maxAbs b :=
        div_nonneg (by norm_num) (le_of_lt hpos)
      have hrw : b.map (fun x => x * (19/20) / maxAbs b)
          = b.map (fun x => x * ((19/20) / maxAbs b)) := by
        apply List.map_congr_left
        intro x _
        rw [mul_div_assoc]
      rw [hrw, maxAbs_map_mulR _ _ hc, mul_comm,
        div_mul_cancel₀ _ (ne_of_gt hpos)]
    · rw [if_neg hp]
      exact le_of_not_lt hp

/-- Claim C6 (counterexample).  The claim asserts final normalization for
EVERY synthesis request, but `synthesize_audio` returns the concatenated
waveform with no final-stage normalization: a single segment `[13/10]`
(peak 1.3 > 0.95, non-zero mean) is returned as-is under `Except.ok`. -/
theorem c6_clipping_guard_counterexample :
    synthesizeAudioOut 22050 [some [13/10]] = Except.ok ([13/10], 22050) ∧
    19/20 < maxAbs [(13 : ℚ)/10] ∧ mean [(13 : ℚ)/10] ≠ 0 := by
  refine ⟨rfl, ?_, by norm_num [mean]⟩
  have habs : |(13 : ℚ)/10| = 13/10 := abs_of_pos (by norm_num)
  norm_num [maxAbs, habs]

/-- Claim C6 (amended): only the `synthesize` (file-writing) path applies
final-stage normalization to the concatenated waveform — there the returned
waveform always has zero mean (DC removed) and absolute peak at most 0.95
(rescaled by `0.95/peak` whenever the centered peak exceeds 0.95) — while
`synthesize_audio` returns the bare concatenation of the stitched blocks
without final normalization. -/
theorem c6_clipping_guard_amended (sr : ℕ)
    (results : List (Option (List ℚ))) (w : List ℚ) :
    (synthesizeOut sr results = some w →
      mean w = 0 ∧ maxAbs w ≤ 19/20) ∧
    (∀ u, synthesizeAudioOut sr results = Except.ok u →
      u = ((stitchBlocks sr results).flatten, sr)) := by
  constructor
  · intro hw
    unfold synthesizeOut at hw
    by_cases hnil : stitchBlocks sr results = []
    · rw [if_pos hnil] at hw
      exact absurd hw (by simp)
    · rw [if_neg hnil] at hw
      have hw2 : w = finalNormalize (stitchBlocks sr results).flatten := by
        injection hw with hw3
        exact hw3.symm
      rw [hw2]
      exact ⟨finalNormalize_mean _, finalNormalize_peak _⟩
  · intro u hu
    unfold synthesizeAudioOut at hu
    by_cases hnil : stitchBlocks sr results = []
    · rw [if_pos hnil] at hu
      exact absurd hu (by simp)
    · rw [if_neg hnil] at hu
      injection hu with hu2
      exact hu2.symm

theorem c6_clipping_guard_amended_witness :
    mean [(0 : ℚ)] = 0 ∧ maxAbs [(0 : ℚ)] ≤ 19/20 := by
  have h1 : synthesizeOut 22050 [some [(13 : ℚ)/10]]
      = some (finalNormalize [13/10]) := rfl
  have h2 : finalNormalize [(13 : ℚ)/10] = [0] := by
    norm_num [finalNormalize, mean, maxAbs, abs_zero]
  exact (c6_clipping_guard_amended 22050 [some [13/10]] [0]).1
    (by rw [h1, h2])

theorem alookup_cons {α β : Type} [DecidableEq α] (q k : α) (v : β)
    (c : List (α × β)) :
    alookup k ((q, v) :: c) = if q = k then some v else alookup k c := rfl

theorem extractRef_eq_guard (env : RefEnv) (s : RefState) (path : String)
    (h : path = "" ∨ env.fileIsFile path = false) :
    extractRef env s path = (none, s) := by
  unfold extractRef
  rw [if_pos h]

theorem extractRef_eq_hit (env : RefEnv) (s : RefState) (path : String)
    (v : List ℚ) (hg : ¬(path = "" ∨ env.fileIsFile path = false))
    (hc : alookup path s.cache = some v) :
    extractRef env s path = (some v, s) := by
  unfold extractRef
  rw [if_neg hg, hc]

theorem extractRef_eq_trained (env : RefEnv) (s : RefState) (path : String)
    (hg : ¬(path = "" ∨ env.fileIsFile path = false))
    (hc : alookup path s.cache = none)
    (h1 : env.hasRefEnc = true ∧ env.refEncUntrained = false) :
    extractRef env s path
      = (some (env.refEncOut path),
         ⟨(path, env.refEncOut path) :: s.cache, s.proj⟩) := by
  unfold extractRef
  rw [if_neg hg, hc, if_pos h1]

theorem extractRef_eq_embg (env : RefEnv) (s : RefState) (path : String)
    (hg : ¬(path = "" ∨ env.fileIsFile path = false))
    (hc : alookup path s.cache = none)
    (h2 : (env.hasRefEnc = false ∨ env.refEncUntrained = true) ∧
      env.hasEmbG = true) :
    extractRef env s path = (none, s) := by
  have h1 : ¬(env.hasRefEnc = true ∧ env.refEncUntrained = false) := by
    rcases h2.1 with h | h <;> simp [h]
  unfold extractRef
  rw [if_neg hg, hc, if_neg h1, if_pos h2]

theorem extractRef_pseudo_ex (env : RefEnv) (s : RefState) (path : String)
    (hg : ¬(path = "" ∨ env.fileIsFile path = false))
    (hc : alookup path s.cache = none)
    (h1 : ¬(env.hasRefEnc = true ∧ env.refEncUntrained = false))
    (h2 : ¬((env.hasRefEnc = false ∨ env.refEncUntrained = true) ∧
      env.hasEmbG = true)) :
    ∃ w pr, extractRef env s path
      = (some w, ⟨(path, w) :: s.cache, some pr⟩) := by
  unfold extractRef
  rw [if_neg hg, hc, if_neg h1, if_neg h2]
  exact ⟨_, _, rfl⟩

theorem extractRef_cache_shape (env : RefEnv) (s : RefState) (q : String) :
    (extractRef env s q).2.cache = s.cache ∨
    ∃ w, (extractRef env s q).2.cache = (q, w) :: s.cache := by
  by_cases hg : q = "" ∨ env.fileIsFile q = false
  · rw [extractRef_eq_guard env s q hg]
    exact Or.inl rfl
  · cases hc : alookup q s.cache with
    | some v =>
      rw [extractRef_eq_hit env s q v hg hc]
      exact Or.inl rfl
    | none =>
      by_cases h1 : env.hasRefEnc = true ∧ env.refEncUntrained = false
      · rw [extractRef_eq_trained env s q hg hc h1]
        exact Or.inr ⟨_, rfl⟩
      · by_cases h2 : (env.hasRefEnc = false ∨ env.refEncUntrained = true) ∧
            env.hasEmbG = true
        · rw [extractRef_eq_embg env s q hg hc h2]
          exact Or.inl rfl
        · obtain ⟨w, pr, hw⟩ := extractRef_pseudo_ex env s q hg hc h1 h2
          rw [hw]
          exact Or.inr ⟨w, rfl⟩

theorem extractRef_none_state (env : RefEnv) (s : RefState) (p : String)
    (h : (extractRef env s p).1 = none) : (extractRef env s p).2 = s := by
  by_cases hg : p = "" ∨ env.fileIsFile p = false
  · rw [extractRef_eq_guard env s p hg]
  · cases hc : alookup p s.cache with
    | some v =>
      rw [extractRef_eq_hit env s p v hg hc] at h
      simp at h
    | none =>
      by_cases h1 : env.hasRefEnc = true ∧ env.refEncUntrained = false
      · rw [extractRef_eq_trained env s p hg hc h1] at h
        simp at h
      · by_cases h2 : (env.hasRefEnc = false ∨ env.refEncUntrained = true) ∧
            env.hasEmbG = true
        · rw [extractRef_eq_embg env s p hg hc h2]
        · obtain ⟨w, pr, hw⟩ := extractRef_pseudo_ex env s p hg hc h1 h2
          rw [hw] at h
          simp at h

theorem extractRef_some_guards (env : RefEnv) (s : RefState) (p : String)
    (v : List ℚ) (h : (extractRef env s p).1 = some v) :
    ¬(p = "" ∨ env.fileIsFile p = false) := by
  intro hg
  rw [extractRef_eq_guard env s p hg] at h
  simp at h

theorem extractRef_caches (env : RefEnv) (s : RefState) (p : String)
    (v : List ℚ) (h : (extractRef env s p).1 = some v) :
    alookup p (extractRef env s p).2.cache = some v := by
  have hg := extractRef_some_guards env s p v h
  cases hc : alookup p s.cache with
  | some w =>
    have he := extractRef_eq_hit env s p w hg hc
    rw [he] at h ⊢
    have hv : some w = some v := h
    rw [← Option.some.inj hv]
    exact hc
  | none =>
    by_cases h1 : env.hasRefEnc = true ∧ env.refEncUntrained = false
    · have he := extractRef_eq_trained env s p hg hc h1
      rw [he] at h ⊢
      have hv : some (env.refEncOut p) = some v := h
      rw [← Option.some.inj hv]
      show (if p = p then some (env.refEncOut p) else _) = _
      rw [if_pos rfl]
    · by_cases h2 : (env.hasRefEnc = false ∨ env.refEncUntrained = true) ∧
          env.hasEmbG = true
      · rw [extractRef_eq_embg env s p hg hc h2] at h
        simp at h
      · obtain ⟨w, pr, hw⟩ := extractRef_pseudo_ex env s p hg hc h1 h2
        rw [hw] at h ⊢
        have hv : some w = some v := h
        rw [← Option.some.inj hv]
        show (if p = p then some w else _) = _
        rw [if_pos rfl]

theorem extractRef_cache_mono (env : RefEnv) (s : RefState) (q p : String)
    (v : List ℚ) (hc : alookup p s.cache = some v) :
    alookup p (extractRef env s q).2.cache = some v := by
  by_cases hqp : q = p
  · subst hqp
    by_cases hg : q = "" ∨ env.fileIsFile q = false
    · rw [extractRef_eq_guard env s q hg]
      exact hc
    · rw [extractRef_eq_hit env s q v hg hc]
      exact hc
  · rcases extractRef_cache_shape env s q with hsh | ⟨w, hsh⟩
    · rw [hsh]
      exact hc
    · rw [hsh, alookup_cons, if_neg hqp]
      exact hc

theorem extractRef_none_char (env : RefEnv) (s : RefState) (p : String)
    (hg : ¬(p = "" ∨ env.fileIsFile p = false))
    (h : (extractRef env s p).1 = none) :
    alookup p s.cache = none ∧
    (env.hasRefEnc = false ∨ env.refEncUntrained = true) ∧
      env.hasEmbG = true := by
  cases hc : alookup p s.cache with
  | some w =>
    rw [extractRef_eq_hit env s p w hg hc] at h
    simp at h
  | none =>
    refine ⟨rfl, ?_⟩
    by_cases h1 : env.hasRefEnc = true ∧ env.refEncUntrained = false
    · rw [extractRef_eq_trained env s p hg hc h1] at h
      simp at h
    · by_cases h2 : (env.hasRefEnc = false ∨ env.refEncUntrained = true) ∧
          env.hasEmbG = true
      · exact h2
      · obtain ⟨w, pr, hw⟩ := extractRef_pseudo_ex env s p hg hc h1 h2
        rw [hw] at h
        simp at h

theorem extractRefImproved_eq_guard (env : RefEnv) (s : RefState)
    (path : String) (h : path = "" ∨ env.fileExists path = false) :
    extractRefImproved env s path = (none, s) := by
  unfold extractRefImproved
  rw [if_pos h]

theorem extractRefImproved_eq_hit (env : RefEnv) (s : RefState)
    (path : String) (v : List ℚ)
    (hg : ¬(path = "" ∨ env.fileExists path = false))
    (hc : alookup path s.cache = some v) :
    extractRefImproved env s path = (some v, s) := by
  unfold extractRefImproved
  rw [if_neg hg, hc]

theorem extractRefImproved_eq_trained (env : RefEnv) (s : RefState)
    (path : String) (hg : ¬(path = "" ∨ env.fileExists path = false))
    (hc : alookup path s.cache = none) (h1 : env.refEncAttr = true) :
    extractRefImproved env s path
      = (some (env.refEncSpec path),
         ⟨(path, env.refEncSpec path) :: s.cache, s.proj⟩) := by
  unfold extractRefImproved
  rw [if_neg hg, hc, if_pos h1]

theorem extractRefImproved_eq_enh (env : RefEnv) (s : RefState)
    (path : String) (hg : ¬(path = "" ∨ env.fileExists path = false))
    (hc : alookup path s.cache = none) (h1 : ¬env.refEncAttr = true) :
    extractRefImproved env s path = (some (env.enhancedOf path), s) := by
  unfold extractRefImproved
  rw [if_neg hg, hc, if_neg h1]

theorem extractRefImproved_cache_shape (env : RefEnv) (s : RefState)
    (q : String) :
    (extractRefImproved env s q).2.cache = s.cache ∨
    ∃ w, (extractRefImproved env s q).2.cache = (q, w) :: s.cache := by
  by_cases hg : q = "" ∨ env.fileExists q = false
  · rw [extractRefImproved_eq_guard env s q hg]
    exact Or.inl rfl
  · cases hc : alookup q s.cache with
    | some v =>
      rw [extractRefImproved_eq_hit env s q v hg hc]
      exact Or.inl rfl
    | none =>
      by_cases h1 : env.refEncAttr = true
      · rw [extractRefImproved_eq_trained env s q hg hc h1]
        exact Or.inr ⟨_, rfl⟩
      · rw [extractRefImproved_eq_enh env s q hg hc h1]
        exact Or.inl rfl

theorem extractRefImproved_cache_mono (env : RefEnv) (s : RefState)
    (q p : String) (v : List ℚ) (hc : alookup p s.cache = some v) :
    alookup p (extractRefImproved env s q).2.cache = some v := by
  by_cases hqp : q = p
  · subst hqp
    by_cases hg : q = "" ∨ env.fileExists q = false
    · rw [extractRefImproved_eq_guard env s q hg]
      exact hc
    · rw [extractRefImproved_eq_hit env s q v hg hc]
      exact hc
  · rcases extractRefImproved_cache_shape env s q with hsh | ⟨w, hsh⟩
    · rw [hsh]
      exact hc
    · rw [hsh, alookup_cons, if_neg hqp]
      exact hc

theorem extractRefImproved_cache_none (env : RefEnv) (s : RefState)
    (q p : String) (hattr : ¬env.refEncAttr = true)
    (hc : alookup p s.cache = none) :
    alookup p (extractRefImproved env s q).2.cache = none := by
  by_cases hg : q = "" ∨ env.fileExists q = false
  · rw [extractRefImproved_eq_guard env s q hg]
    exact hc
  · cases hcq : alookup q s.cache with
    | some v =>
      rw [extractRefImproved_eq_hit env s q v hg hcq]
      exact hc
    | none =>
      rw [extractRefImproved_eq_enh env s q hg hcq hattr]
      exact hc

theorem extractRefImproved_none_guard (env : RefEnv) (s : RefState)
    (p : String) (h : (extractRefImproved env s p).1 = none) :
    p = "" ∨ env.fileExists p = false := by
  by_cases hg : p = "" ∨ env.fileExists p = false
  · exact hg
  · exfalso
    cases hc : alookup p s.cache with
    | some v =>
      rw [extractRefImproved_eq_hit env s p v hg hc] at h
      simp at h
    | none =>
      by_cases h1 : env.refEncAttr = true
      · rw [extractRefImproved_eq_trained env s p hg hc h1] at h
        simp at h
      · rw [extractRefImproved_eq_enh env s p hg hc h1] at h
        simp at h

/-- Claim C7 (confirmed).  Pseudo-embedding determinism: for both extractors
(`_extract_reference_embedding` and `_extract_reference_embedding_improved`),
a repeated call on the same path in the same process returns the same
embedding as the first call — immediately and also after an arbitrary
intervening call on any other path (the first result is either served from
`_ref_cache` or recomputed by the same deterministic pure computation) — and
both extractors return None when no path is given or the file does not
exist. -/
theorem c7_embedding_determinism (env : RefEnv) (s : RefState)
    (p q : String) :
    (extractRef env (extractRef env s p).2 p).1
        = (extractRef env s p).1 ∧
    (extractRef env (extractRef env (extractRef env s p).2 q).2 p).1
        = (extractRef env s p).1 ∧
    (extractRefImproved env (extractRefImproved env s p).2 p).1
        = (extractRefImproved env s p).1 ∧
    (extractRefImproved env
        (extractRefImproved env (extractRefImproved env s p).2 q).2 p).1
        = (extractRefImproved env s p).1 ∧
    extractRef env s "" = (none, s) ∧
    extractRefImproved env s "" = (none, s) ∧
    (env.fileIsFile p = false → (extractRef env s p).1 = none) ∧
    (env.fileExists p = false → (extractRefImproved env s p).1 = none) := by
  refine ⟨?_, ?_, ?_, ?_, ?_, ?_, ?_, ?_⟩
  · cases h : (extractRef env s p).1 with
    | some v =>
      have hg := extractRef_some_guards env s p v h
      have hca := extractRef_caches env s p v h
      rw [extractRef_eq_hit env _ p v hg hca]
    | none =>
      rw [extractRef_none_state env s p h]
      exact h
  · cases h : (extractRef env s p).1 with
    | some v =>
      have hg := extractRef_some_guards env s p v h
      have hca := extractRef_caches env s p v h
      have hmono := extractRef_cache_mono env (extractRef env s p).2 q p v hca
      rw [extractRef_eq_hit env _ p v hg hmono]
    | none =>
      rw [extractRef_none_state env s p h]
      by_cases hg : p = "" ∨ env.fileIsFile p = false
      · rw [extractRef_eq_guard env _ p hg]
      · obtain ⟨hcnone, hcond⟩ := extractRef_none_char env s p hg h
        have hc2 : alookup p (extractRef env s q).2.cache = none := by
          by_cases hqp : q = p
          · subst hqp
            rw [extractRef_none_state env s q h]
            exact hcnone
          · rcases extractRef_cache_shape env s q with hsh | ⟨w, hsh⟩
            · rw [hsh]
              exact hcnone
            · rw [hsh, alookup_cons, if_neg hqp]
              exact hcnone
        rw [extractRef_eq_embg env _ p hg hc2 hcond]
  · cases h : (extractRefImproved env s p).1 with
    | none =>
      have hg := extractRefImproved_none_guard env s p h
      have hs1 : extractRefImproved env s p = (none, s) :=
        extractRefImproved_eq_guard env s p hg
      rw [hs1]
      rw [extractRefImproved_eq_guard env s p hg]
    | some v =>
      have hg : ¬(p = "" ∨ env.fileExists p = false) := by
        intro hg
        rw [extractRefImproved_eq_guard env s p hg] at h
        simp at h
      cases hc : alookup p s.cache with
      | some w =>
        have he := extractRefImproved_eq_hit env s p w hg hc
        have hs1 : (extractRefImproved env s p).2 = s := by rw [he]
        rw [hs1]
        exact h
      | none =>
        by_cases hattr : env.refEncAttr = true
        · have he := extractRefImproved_eq_trained env s p hg hc hattr
          have hs1 : (extractRefImproved env s p).2
              = ⟨(p, env.refEncSpec p) :: s.cache, s.proj⟩ := by rw [he]
          have hcc : alookup p
              ((⟨(p, env.refEncSpec p) :: s.cache, s.proj⟩ : RefState)).cache
              = some (env.refEncSpec p) := by
            rw [alookup_cons, if_pos rfl]
          rw [hs1, extractRefImproved_eq_hit env _ p (env.refEncSpec p) hg hcc]
          rw [he] at h
          exact h
        · have he := extractRefImproved_eq_enh env s p hg hc hattr
          have hs1 : (extractRefImproved env s p).2 = s := by rw [he]
          rw [hs1, extractRefImproved_eq_enh env s p hg hc hattr]
          rw [he] at h
          exact h
  · cases h : (extractRefImproved env s p).1 with
    | none =>
      have hg := extractRefImproved_none_guard env s p h
      rw [extractRefImproved_eq_guard env s p hg]
      rw [extractRefImproved_eq_guard env _ p hg]
    | some v =>
      have hg : ¬(p = "" ∨ env.fileExists p = false) := by
        intro hg
        rw [extractRefImproved_eq_guard env s p hg] at h
        simp at h
      cases hc : alookup p s.cache with
      | some w =>
        have he := extractRefImproved_eq_hit env s p w hg hc
        have hs1 : (extractRefImproved env s p).2 = s := by rw [he]
        have hmono := extractRefImproved_cache_mono env s q p w hc
        rw [hs1, extractRefImproved_eq_hit env _ p w hg hmono]
        rw [he] at h
        exact h
      | none =>
        by_cases hattr : env.refEncAttr = true
        · have he := extractRefImproved_eq_trained env s p hg hc hattr
          have hs1 : (extractRefImproved env s p).2
              = ⟨(p, env.refEncSpec p) :: s.cache, s.proj⟩ := by rw [he]
          have hcc : alookup p
              ((⟨(p, env.refEncSpec p) :: s.cache, s.proj⟩ : RefState)).cache
              = some (env.refEncSpec p) := by
            rw [alookup_cons, if_pos rfl]
          have hmono := extractRefImproved_cache_mono env
            ⟨(p, env.refEncSpec p) :: s.cache, s.proj⟩ q p
            (env.refEncSpec p) hcc
          rw [hs1, extractRefImproved_eq_hit env _ p (env.refEncSpec p) hg hmono]
          rw [he] at h
          exact h
        · have he := extractRefImproved_eq_enh env s p hg hc hattr
          have hs1 : (extractRefImproved env s p).2 = s := by rw [he]
          have hkeep := extractRefImproved_cache_none env s q p hattr hc
          rw [hs1, extractRefImproved_eq_enh env _ p hg hkeep hattr]
          rw [he] at h
          exact h
  · exact extractRef_eq_guard env s "" (Or.inl rfl)
  · exact extractRefImproved_eq_guard env s "" (Or.inl rfl)
  · intro hf
    rw [extractRef_eq_guard env s p (Or.inr hf)]
  · intro hf
    rw [extractRefImproved_eq_guard env s p (Or.inr hf)]

theorem c7_embedding_determinism_witness :
    (extractRef envW (extractRef envW ⟨[], none⟩ "a").2 "a").1
        = (extractRef envW ⟨[], none⟩ "a").1 ∧
    (extractRef envW2 ⟨[], none⟩ "a").1 = none ∧
    (extractRefImproved envW2 ⟨[], none⟩ "a").1 = none :=
  ⟨(c7_embedding_determinism envW ⟨[], none⟩ "a" "b").1,
   (c7_embedding_determinism envW2 ⟨[], none⟩ "a" "b").2.2.2.2.2.2.1 rfl,
   (c7_embedding_determinism envW2 ⟨[], none⟩ "a" "b").2.2.2.2.2.2.2 rfl⟩

theorem extractRef_eq_pseudo_fresh (env : RefEnv) (s : RefState)
    (path : String) (hg : ¬(path = "" ∨ env.fileIsFile path = false))
    (hc : alookup path s.cache = none)
    (h1 : ¬(env.hasRefEnc = true ∧ env.refEncUntrained = false))
    (h2 : ¬((env.hasRefEnc = false ∨ env.refEncUntrained = true) ∧
      env.hasEmbG = true))
    (hproj : s.proj = none) :
    extractRef env s path
      = (some (env.layerNorm (matVec
            (randnMat env (env.md5 path % 2147483647) env.gin
              (env.statsOf path).length) (env.statsOf path))),
         ⟨(path, env.layerNorm (matVec
            (randnMat env (env.md5 path % 2147483647) env.gin
              (env.statsOf path).length) (env.statsOf path))) :: s.cache,
          some ((env.gin, (env.statsOf path).length),
            randnMat env (env.md5 path % 2147483647) env.gin
              (env.statsOf path).length)⟩) := by
  unfold extractRef
  rw [if_neg hg, hc, if_neg h1, if_neg h2, hproj]

theorem extractRef_eq_pseudo_reuse (env : RefEnv) (s : RefState)
    (path : String) (pm : (ℕ × ℕ) × List (List ℚ))
    (hg : ¬(path = "" ∨ env.fileIsFile path = false))
    (hc : alookup path s.cache = none)
    (h1 : ¬(env.hasRefEnc = true ∧ env.refEncUntrained = false))
    (h2 : ¬((env.hasRefEnc = false ∨ env.refEncUntrained = true) ∧
      env.hasEmbG = true))
    (hproj : s.proj = some pm)
    (hshape : pm.1 = (env.gin, (env.statsOf path).length)) :
    extractRef env s path
      = (some (env.layerNorm (matVec pm.2 (env.statsOf path))),
         ⟨(path, env.layerNorm (matVec pm.2 (env.statsOf path))) :: s.cache,
          some pm⟩) := by
  unfold extractRef
  rw [if_neg hg, hc, if_neg h1, if_neg h2, hproj]
  simp [hshape]

/-- Claim C10 (confirmed).  In the legacy pseudo-embedding path the random
projection matrix is created only when none exists or the required shape
`(gin, in_dim)` differs, seeded from `md5(path) % (2**31 - 1)` of whichever
path triggered the creation: starting from a fresh projection state, after
extracting `p1`, the stored matrix is seeded from `p1`; a second, distinct
path `p2` whose statistics vector has the same length is then projected with
that `p1`-seeded matrix (the projection state is left unchanged), not with a
matrix seeded from `p2`'s own hash. -/
theorem c10_pseudo_proj_seed_reuse (env : RefEnv) (s : RefState)
    (p1 p2 : String) (hp1 : p1 ≠ "") (hp2 : p2 ≠ "") (hne : p1 ≠ p2)
    (hf1 : env.fileIsFile p1 = true) (hf2 : env.fileIsFile p2 = true)
    (hc1 : alookup p1 s.cache = none) (hc2 : alookup p2 s.cache = none)
    (hproj : s.proj = none) (hmode1 : env.hasRefEnc = false)
    (hmode2 : env.hasEmbG = false)
    (hd : (env.statsOf p2).length = (env.statsOf p1).length) :
    (extractRef env s p1).2.proj
        = some ((env.gin, (env.statsOf p1).length),
            randnMat env (env.md5 p1 % 2147483647) env.gin
              (env.statsOf p1).length) ∧
    (extractRef env (extractRef env s p1).2 p2).1
        = some (env.layerNorm (matVec
            (randnMat env (env.md5 p1 % 2147483647) env.gin
              (env.statsOf p1).length) (env.statsOf p2))) ∧
    (extractRef env (extractRef env s p1).2 p2).2.proj
        = (extractRef env s p1).2.proj := by
  have hg1 : ¬(p1 = "" ∨ env.fileIsFile p1 = false) := by
    rintro (h | h)
    · exact hp1 h
    · rw [hf1] at h
      exact Bool.noConfusion h
  have hg2 : ¬(p2 = "" ∨ env.fileIsFile p2 = false) := by
    rintro (h | h)
    · exact hp2 h
    · rw [hf2] at h
      exact Bool.noConfusion h
  have h1 : ¬(env.hasRefEnc = true ∧ env.refEncUntrained = false) := by
    rintro ⟨ha, -⟩
    rw [hmode1] at ha
    exact Bool.noConfusion ha
  have h2 : ¬((env.hasRefEnc = false ∨ env.refEncUntrained = true) ∧
      env.hasEmbG = true) := by
    rintro ⟨-, hb⟩
    rw [hmode2] at hb
    exact Bool.noConfusion hb
  have he1 := extractRef_eq_pseudo_fresh env s p1 hg1 hc1 h1 h2 hproj
  have hs1proj : (extractRef env s p1).2.proj
      = some ((env.gin, (env.statsOf p1).length),
          randnMat env (env.md5 p1 % 2147483647) env.gin
            (env.statsOf p1).length) := by
    rw [he1]
  have hs1cache : alookup p2 (extractRef env s p1).2.cache = none := by
    rw [he1, alookup_cons, if_neg hne]
    exact hc2
  have hshape : ((env.gin, (env.statsOf p1).length),
      randnMat env (env.md5 p1 % 2147483647) env.gin
        (env.statsOf p1).length).1 = (env.gin, (env.statsOf p2).length) := by
    rw [hd]
  have he2 := extractRef_eq_pseudo_reuse env (extractRef env s p1).2 p2
    ((env.gin, (env.statsOf p1).length),
      randnMat env (env.md5 p1 % 2147483647) env.gin
        (env.statsOf p1).length)
    hg2 hs1cache h1 h2 hs1proj hshape
  refine ⟨hs1proj, ?_, ?_⟩
  · rw [he2]
  · rw [he2, hs1proj]

theorem c10_pseudo_proj_seed_reuse_witness :
    (extractRef envW ⟨[], none⟩ "a").2.proj
        = some ((envW.gin, (envW.statsOf "a").length),
            randnMat envW (envW.md5 "a" % 2147483647) envW.gin
              (envW.statsOf "a").length) ∧
    (extractRef envW (extractRef envW ⟨[], none⟩ "a").2 "b").1
        = some (envW.layerNorm (matVec
            (randnMat envW (envW.md5 "a" % 2147483647) envW.gin
              (envW.statsOf "a").length) (envW.statsOf "b"))) ∧
    (extractRef envW (extractRef envW ⟨[], none⟩ "a").2 "b").2.proj
        = (extractRef envW ⟨[], none⟩ "a").2.proj :=
  c10_pseudo_proj_seed_reuse envW ⟨[], none⟩ "a" "b" (by decide) (by decide)
    (by decide) rfl rfl rfl rfl rfl rfl rfl rfl

/-- Claim C8 (confirmed).  Sentence segmentation: the splitter cuts at
`[.!?]` followed by whitespace and a capital letter (the whitespace run is
consumed as separator); `"Hello there. This is a test."` yields exactly the
two sentences `"Hello there."` and `"This is a test."`; `"Hi"` stays one
sentence; and whenever splitting yields exactly one piece and the stripped
text is shorter than 100 characters, the whole stripped input is the single
sentence. -/
theorem c8_sentence_segmentation :
    segmentSentences "Hello there. This is a test.".toList
        = ["Hello there.".toList, "This is a test.".toList] ∧
    segmentSentences "Hi".toList = ["Hi".toList] ∧
    (∀ t : List Char, (rawSentences (pyStrip t)).length = 1 →
      (pyStrip t).length < 100 → segmentSentences t = [pyStrip t]) := by
  refine ⟨by decide, by decide, ?_⟩
  intro t h1 h2
  unfold segmentSentences
  rw [if_pos (Or.inr ⟨h1, h2⟩)]

theorem c8_sentence_segmentation_witness :
    segmentSentences "xyz qrs".toList = [pyStrip "xyz qrs".toList] :=
  (c8_sentence_segmentation).2.2 "xyz qrs".toList (by decide) (by decide)

theorem textToIds_hit (compute : TokKey → List Int)
    (cache : List (TokKey × List Int)) (k : TokKey) (v : List Int)
    (h : alookup k cache = some v) :
    textToIds compute cache k = (v, cache) := by
  unfold textToIds
  rw [h]

theorem textToIds_lookup (compute : TokKey → List Int)
    (cache : List (TokKey × List Int)) (k : TokKey) :
    alookup k (textToIds compute cache k).2
      = some (textToIds compute cache k).1 := by
  unfold textToIds
  cases hc : alookup k cache with
  | some v =>
    exact hc
  | none =>
    show alookup k ((k, compute k) :: cache) = some (compute k)
    rw [alookup_cons, if_pos rfl]

theorem textToIds_mono (compute : TokKey → List Int)
    (cache : List (TokKey × List Int)) (k q : TokKey) (v : List Int)
    (h : alookup k cache = some v) :
    alookup k (textToIds compute cache q).2 = some v := by
  unfold textToIds
  cases hc : alookup q cache with
  | some w =>
    exact h
  | none =>
    show alookup k ((q, compute q) :: cache) = some v
    by_cases hqk : q = k
    · subst hqk
      rw [h] at hc
      exact Option.noConfusion hc
    · rw [alookup_cons, if_neg hqk]
      exact h

theorem runToksCache_mono (compute : TokKey → List Int) (ks : List TokKey) :
    ∀ (cache : List (TokKey × List Int)) (k : TokKey) (v : List Int),
      alookup k cache = some v →
      alookup k (runToksCache compute ks cache) = some v := by
  induction ks with
  | nil =>
    intro cache k v h
    exact h
  | cons q qs ih =>
    intro cache k v h
    exact ih _ k v (textToIds_mono compute cache k q v h)

/-- Claim C9 (confirmed).  Tokenizer purity via memoization: the first call
on a key stores its result in `_seq_cache`, and every later call on the same
key — immediately after, or after any sequence of calls on other keys, and
even if the underlying cascade would now compute something different
(`compute2`, `compute3`) — returns exactly the first call's token
sequence. -/
theorem c9_tokenizer_purity (compute compute2 compute3 : TokKey → List Int)
    (cache : List (TokKey × List Int)) (k : TokKey) (ks : List TokKey) :
    (textToIds compute2 (textToIds compute cache k).2 k).1
        = (textToIds compute cache k).1 ∧
    (textToIds compute3
        (runToksCache compute2 ks (textToIds compute cache k).2) k).1
        = (textToIds compute cache k).1 := by
  have h1 := textToIds_lookup compute cache k
  constructor
  · rw [textToIds_hit compute2 _ k _ h1]
  · have h2 := runToksCache_mono compute2 ks _ k _ h1
    rw [textToIds_hit compute3 _ k _ h2]
